import Mathlib

/-!
Verification development for the PubMed batch fetcher
(`src/pubmed_llm_fetcher.py`).

The core of the program is `PubMedFetcher.process_and_batch_articles`:
a single-pass greedy packer that groups articles into token-limited
batches.  We embed the packer, the quality filter of `fetch_articles`,
and the guarded average computations of `save_summary` / `print_summary`
as pure Lean functions, and prove the specified properties about them.
-/

namespace PubmedFetcher

/-- An article as produced by `fetch_articles`: the dictionary
`{'pmid': ..., 'title': ..., 'abstract': ...}`. -/
structure Article where
  pmid : String
  title : String
  abstract : String
deriving Repr, DecidableEq

/-- An article after `process_and_batch_articles` stored its metrics:
`article['word_count'] = word_count; article['token_count'] = token_count`. -/
structure CostedArticle where
  pmid : String
  title : String
  abstract : String
  word_count : Nat
  token_count : Nat
deriving Repr, DecidableEq

/-- `combined_text = f"{article['title']} {article['abstract']}"`. -/
def combinedText (a : Article) : String :=
  a.title ++ " " ++ a.abstract

/-- Core of `count_words`: counts the maximal runs of non-whitespace
characters, carrying a flag saying whether the previous character was
inside a word. -/
def countWordsAux : List Char → Bool → Nat
  | [], _ => 0
  | c :: cs, inWord =>
    if c.isWhitespace then countWordsAux cs false
    else (if inWord then 0 else 1) + countWordsAux cs true

/-- `count_words`: `len(text.split())`.  Python's argumentless `split`
splits on whitespace runs and discards empty pieces, so the word count
is the number of maximal non-whitespace runs. -/
def count_words (text : String) : Nat :=
  countWordsAux text.toList false

/-- The per-article costing step of the loop body of
`process_and_batch_articles`: compute `word_count` and `token_count` of
the combined text and store them on the article.  The token counter
(`count_tokens`, tiktoken's `cl100k_base` encoder) is an external, pure
cost function and is a parameter of the embedding. -/
def costArticle (count_tokens : String → Nat) (a : Article) : CostedArticle :=
  { pmid := a.pmid
    title := a.title
    abstract := a.abstract
    word_count := count_words (combinedText a)
    token_count := count_tokens (combinedText a) }

/-- One entry of `self.batches`:
`{'batch_number': ..., 'article_count': ..., 'token_count': ...}`. -/
structure BatchMeta where
  batch_number : Nat
  article_count : Nat
  token_count : Nat
deriving Repr, DecidableEq

/-- A batch as handed to `_save_batch(batch, batch_number, token_count)`:
the list of articles it contains together with its number and its
accumulated token count. -/
structure Batch where
  batch_number : Nat
  records : List CostedArticle
  token_count : Nat
deriving Repr, DecidableEq

/-- The mutable state of the loop in `process_and_batch_articles`:
`current_batch`, `current_batch_tokens`, `batch_number`, the batches
saved so far (`_save_batch` calls), `self.batches`, and the running
totals `self.total_words` / `self.total_tokens`. -/
structure LoopState where
  current_batch : List CostedArticle
  current_batch_tokens : Nat
  batch_number : Nat
  saved : List Batch
  batchesMeta : List BatchMeta
  total_words : Nat
  total_tokens : Nat
deriving Repr, DecidableEq

/-- State at loop entry: `current_batch = []`,
`current_batch_tokens = 0`, `batch_number = 1`, fresh statistics. -/
def initState : LoopState :=
  { current_batch := []
    current_batch_tokens := 0
    batch_number := 1
    saved := []
    batchesMeta := []
    total_words := 0
    total_tokens := 0 }

/-- The body of `for idx, article in enumerate(articles, 1)` in
`process_and_batch_articles`, acting on an already-costed article:
update the totals, then either close the current batch and open a new
one holding only this article (`current_batch_tokens + token_count >
self.token_limit and current_batch`), or append the article to the
current batch. -/
def processStep (token_limit : Nat) (s : LoopState) (article : CostedArticle) :
    LoopState :=
  if token_limit < s.current_batch_tokens + article.token_count ∧
      s.current_batch ≠ [] then
    { current_batch := [article]
      current_batch_tokens := article.token_count
      batch_number := s.batch_number + 1
      saved := s.saved ++ [⟨s.batch_number, s.current_batch, s.current_batch_tokens⟩]
      batchesMeta := s.batchesMeta ++
        [⟨s.batch_number, s.current_batch.length, s.current_batch_tokens⟩]
      total_words := s.total_words + article.word_count
      total_tokens := s.total_tokens + article.token_count }
  else
    { s with
      current_batch := s.current_batch ++ [article]
      current_batch_tokens := s.current_batch_tokens + article.token_count
      total_words := s.total_words + article.word_count
      total_tokens := s.total_tokens + article.token_count }

/-- The observable outcome of `process_and_batch_articles`: the batches
saved to disk, `self.batches`, and the run totals. -/
structure PackResult where
  saved : List Batch
  batchesMeta : List BatchMeta
  total_words : Nat
  total_tokens : Nat
  total_articles : Nat
deriving Repr, DecidableEq

/-- The post-loop flush: `if current_batch: self._save_batch(...);
self.batches.append(...)`, then `self.total_articles = len(articles)`. -/
def flushState (s : LoopState) (n : Nat) : PackResult :=
  if s.current_batch ≠ [] then
    { saved := s.saved ++ [⟨s.batch_number, s.current_batch, s.current_batch_tokens⟩]
      batchesMeta := s.batchesMeta ++
        [⟨s.batch_number, s.current_batch.length, s.current_batch_tokens⟩]
      total_words := s.total_words
      total_tokens := s.total_tokens
      total_articles := n }
  else
    { saved := s.saved
      batchesMeta := s.batchesMeta
      total_words := s.total_words
      total_tokens := s.total_tokens
      total_articles := n }

/-- The packing loop over already-costed articles, followed by the
final flush. -/
def packCosted (token_limit : Nat) (records : List CostedArticle) : PackResult :=
  flushState (records.foldl (processStep token_limit) initState) records.length

/-- `process_and_batch_articles(articles)`: cost each article in order
(the costing of an article depends only on that article, so it commutes
with the loop) and run the greedy packing loop with the configured
`self.token_limit`. -/
def process_and_batch_articles (count_tokens : String → Nat) (token_limit : Nat)
    (articles : List Article) : PackResult :=
  packCosted token_limit (articles.map (costArticle count_tokens))

/-- Sum of the `token_count` fields of a list of costed articles. -/
def costSum (l : List CostedArticle) : Nat :=
  (l.map CostedArticle.token_count).sum

/-- Sum of the `word_count` fields of a list of costed articles. -/
def wordSum (l : List CostedArticle) : Nat :=
  (l.map CostedArticle.word_count).sum

/-- Concatenation of the record lists of a list of batches, in batch
order. -/
def flattenRecs : List Batch → List CostedArticle
  | [] => []
  | b :: bs => b.records ++ flattenRecs bs

/-- The `self.batches` entry recorded for a batch. -/
def batchProj (b : Batch) : BatchMeta :=
  ⟨b.batch_number, b.records.length, b.token_count⟩

/-- `n` consecutive natural numbers starting at `s`. -/
def consecutiveFrom (s n : Nat) : List Nat :=
  match n with
  | 0 => []
  | n + 1 => s :: consecutiveFrom (s + 1) n

/-! ### The quality filter of `fetch_articles`

`fetch_articles` walks the parsed XML records.  For each record it
extracts the PMID and the title (a missing key raises `KeyError`, which
is caught: the record is skipped and the skip counter incremented), then
inspects `Article.get('Abstract')`: the record is admitted when that
value is truthy and contains the key `'AbstractText'`; otherwise it is
skipped and the skip counter incremented. -/

/-- The shape of `MedlineCitation.Article.get('Abstract')` as far as the
code inspects it. -/
inductive AbstractData where
  /-- No `Abstract` key, or a falsy value (e.g. an empty dict):
  `abstract_data` is falsy. -/
  | absent
  /-- A truthy `Abstract` dict that has no `AbstractText` key. -/
  | withoutText
  /-- `AbstractText` is a list of parts. -/
  | textList (parts : List String)
  /-- `AbstractText` is a single (non-list) value, read with `str`. -/
  | textSingle (s : String)
deriving Repr, DecidableEq

/-- A parsed `PubmedArticle` record as far as `fetch_articles` reads it.
`none` in `pmid` or `title` models the `KeyError` path (missing
required structure). -/
structure PubmedRecord where
  pmid : Option String
  title : Option String
  abstract : AbstractData
deriving Repr, DecidableEq

/-- The abstract-extraction branch: `" ".join(str(part) for part in
abstract_parts)` for a list, `str(abstract_parts)` otherwise; `none`
when the record is to be skipped. -/
def extractAbstract : AbstractData → Option String
  | .absent => none
  | .withoutText => none
  | .textList parts => some (String.intercalate " " parts)
  | .textSingle s => some s

/-- Whether and how a fetched record is admitted: `some article` when
all required keys are present and the abstract check passes, `none`
when the record is skipped. -/
def admitRecord (r : PubmedRecord) : Option Article :=
  match r.pmid, r.title with
  | some pmid, some title =>
    (extractAbstract r.abstract).map (fun abstract => ⟨pmid, title, abstract⟩)
  | _, _ => none

/-- Loop body of `fetch_articles`: append the admitted article to
`articles`, or increment `self.skipped_articles`. -/
def fetchStep (acc : List Article × Nat) (r : PubmedRecord) : List Article × Nat :=
  match admitRecord r with
  | some a => (acc.1 ++ [a], acc.2)
  | none => (acc.1, acc.2 + 1)

/-- `fetch_articles`: the admitted articles in input order, together
with the final skip counter (starting from 0 in a fresh run). -/
def fetch_articles (records : List PubmedRecord) : List Article × Nat :=
  records.foldl fetchStep ([], 0)

/-! ### The guarded averages of `save_summary` and `print_summary` -/

/-- Python's `//` on non-negative integers: `none` is the
`ZeroDivisionError` raised when the divisor is zero. -/
def pyFloorDiv (a b : Nat) : Option Nat :=
  if b = 0 then none else some (a / b)

/-- The average lines `save_summary` writes into the `TOKEN & WORD
METRICS` section: guarded by `if self.total_articles > 0`.  `none`
models an uncaught `ZeroDivisionError`; `some lines` is the (possibly
empty) list of average lines written. -/
def summaryAverageLines (total_words total_tokens total_articles : Nat) :
    Option (List String) :=
  if 0 < total_articles then
    match pyFloorDiv total_words total_articles,
        pyFloorDiv total_tokens total_articles with
    | some aw, some atok =>
      some ["Average words per article: " ++ toString aw,
            "Average tokens per article: " ++ toString atok]
    | _, _ => none
  else
    some []

/-- The average line `print_summary` prints, with the same guard. -/
def printAverageLines (total_tokens total_articles : Nat) :
    Option (List String) :=
  if 0 < total_articles then
    match pyFloorDiv total_tokens total_articles with
    | some atok => some ["Avg tokens/article: " ++ toString atok]
    | none => none
  else
    some []

/-! ### The loop invariant of `process_and_batch_articles` -/

/-- Everything the loop of `process_and_batch_articles` maintains, with
`done` the prefix of (costed) articles processed so far. -/
structure PackInv (limit : Nat) (done : List CostedArticle) (s : LoopState) :
    Prop where
  tokens_eq : s.current_batch_tokens = costSum s.current_batch
  saved_sum : ∀ b ∈ s.saved, b.token_count = costSum b.records
  saved_nonempty : ∀ b ∈ s.saved, b.records ≠ []
  saved_cap : ∀ b ∈ s.saved, 1 < b.records.length → b.token_count ≤ limit
  cur_cap : 1 < s.current_batch.length → s.current_batch_tokens ≤ limit
  flatten_eq : flattenRecs s.saved ++ s.current_batch = done
  meta_eq : s.batchesMeta = s.saved.map batchProj
  number_eq : s.batch_number = s.saved.length + 1
  numbers_eq : s.saved.map Batch.batch_number = consecutiveFrom 1 s.saved.length
  words_eq : s.total_words = wordSum done
  toks_eq : s.total_tokens = costSum done

/-! ### Helper lemmas -/

theorem costSum_append (l₁ l₂ : List CostedArticle) :
    costSum (l₁ ++ l₂) = costSum l₁ + costSum l₂ := by
  simp [costSum]

theorem costSum_singleton (a : CostedArticle) : costSum [a] = a.token_count := by
  simp [costSum]

theorem wordSum_append (l₁ l₂ : List CostedArticle) :
    wordSum (l₁ ++ l₂) = wordSum l₁ + wordSum l₂ := by
  simp [wordSum]

theorem wordSum_singleton (a : CostedArticle) : wordSum [a] = a.word_count := by
  simp [wordSum]

theorem flattenRecs_append (l₁ l₂ : List Batch) :
    flattenRecs (l₁ ++ l₂) = flattenRecs l₁ ++ flattenRecs l₂ := by
  induction l₁ with
  | nil => rfl
  | cons b l ih => simp [flattenRecs, ih]

theorem flattenRecs_singleton (b : Batch) : flattenRecs [b] = b.records := by
  simp [flattenRecs]

theorem consecutiveFrom_snoc (s n : Nat) :
    consecutiveFrom s (n + 1) = consecutiveFrom s n ++ [s + n] := by
  induction n generalizing s with
  | zero => rfl
  | succ n ih =>
    rw [consecutiveFrom, ih, consecutiveFrom]
    simp
    omega

/-- The loop body preserves the invariant. -/
theorem packInv_step {limit : Nat} {done : List CostedArticle} {s : LoopState}
    (a : CostedArticle) (h : PackInv limit done s) :
    PackInv limit (done ++ [a]) (processStep limit s a) := by
  rw [processStep]
  split
  case isTrue hc =>
    obtain ⟨hgt, hne⟩ := hc
    refine ⟨?_, ?_, ?_, ?_, ?_, ?_, ?_, ?_, ?_, ?_, ?_⟩
    · simp [costSum]
    · intro b hb
      rcases List.mem_append.mp hb with hb | hb
      · exact h.saved_sum b hb
      · rw [List.mem_singleton.mp hb]
        simpa using h.tokens_eq
    · intro b hb
      rcases List.mem_append.mp hb with hb | hb
      · exact h.saved_nonempty b hb
      · rw [List.mem_singleton.mp hb]
        simpa using hne
    · intro b hb
      rcases List.mem_append.mp hb with hb | hb
      · exact h.saved_cap b hb
      · rw [List.mem_singleton.mp hb]
        intro hlen
        exact h.cur_cap hlen
    · intro hlen
      simp at hlen
    · rw [flattenRecs_append, flattenRecs_singleton]
      simpa [List.append_assoc] using congrArg (· ++ [a]) h.flatten_eq
    · simp [h.meta_eq, batchProj]
    · simp [h.number_eq]
    · simp [h.numbers_eq, h.number_eq, consecutiveFrom_snoc, Nat.add_comm]
    · rw [wordSum_append, wordSum_singleton, h.words_eq]
    · rw [costSum_append, costSum_singleton, h.toks_eq]
  case isFalse hc =>
    refine ⟨?_, h.saved_sum, h.saved_nonempty, h.saved_cap, ?_, ?_, h.meta_eq,
      h.number_eq, h.numbers_eq, ?_, ?_⟩
    · rw [costSum_append, costSum_singleton, h.tokens_eq]
    · intro hlen
      have hne : s.current_batch ≠ [] := by
        intro he
        rw [he] at hlen
        simp at hlen
      rcases Decidable.not_and_iff_or_not.mp hc with hA | hB
      · exact not_lt.mp hA
      · exact absurd hne hB
    · rw [← List.append_assoc, h.flatten_eq]
    · rw [wordSum_append, wordSum_singleton, h.words_eq]
    · rw [costSum_append, costSum_singleton, h.toks_eq]

/-- The whole loop preserves the invariant. -/
theorem packInv_foldl {limit : Nat} (rest : List CostedArticle) :
    ∀ (done : List CostedArticle) (s : LoopState), PackInv limit done s →
      PackInv limit (done ++ rest) (rest.foldl (processStep limit) s) := by
  induction rest with
  | nil =>
    intro done s h
    simpa using h
  | cons a rest ih =>
    intro done s h
    have h₂ := ih (done ++ [a]) (processStep limit s a) (packInv_step a h)
    simpa [List.append_assoc] using h₂

/-- The invariant holds at loop entry. -/
theorem packInv_init (limit : Nat) : PackInv limit [] initState := by
  refine ⟨?_, ?_, ?_, ?_, ?_, ?_, ?_, ?_, ?_, ?_, ?_⟩ <;>
    simp [initState, costSum, wordSum, flattenRecs, consecutiveFrom]

/-- Everything `process_and_batch_articles` guarantees about its
result, stated over the costed article sequence. -/
structure PackFacts (limit : Nat) (records : List CostedArticle)
    (r : PackResult) : Prop where
  saved_sum : ∀ b ∈ r.saved, b.token_count = costSum b.records
  saved_nonempty : ∀ b ∈ r.saved, b.records ≠ []
  saved_cap : ∀ b ∈ r.saved, 1 < b.records.length → b.token_count ≤ limit
  flatten_eq : flattenRecs r.saved = records
  meta_eq : r.batchesMeta = r.saved.map batchProj
  numbers_eq : r.saved.map Batch.batch_number = consecutiveFrom 1 r.saved.length
  words_eq : r.total_words = wordSum records
  toks_eq : r.total_tokens = costSum records
  articles_eq : r.total_articles = records.length

theorem packCosted_facts (limit : Nat) (records : List CostedArticle) :
    PackFacts limit records (packCosted limit records) := by
  have h := packInv_foldl records [] initState (packInv_init limit)
  rw [List.nil_append] at h
  rw [packCosted]
  generalize hs : records.foldl (processStep limit) initState = s at h
  rw [flushState]
  split
  case isTrue hne =>
    refine ⟨?_, ?_, ?_, ?_, ?_, ?_, ?_, ?_, ?_⟩
    · intro b hb
      rcases List.mem_append.mp hb with hb | hb
      · exact h.saved_sum b hb
      · rw [List.mem_singleton.mp hb]
        simpa using h.tokens_eq
    · intro b hb
      rcases List.mem_append.mp hb with hb | hb
      · exact h.saved_nonempty b hb
      · rw [List.mem_singleton.mp hb]
        simpa using hne
    · intro b hb
      rcases List.mem_append.mp hb with hb | hb
      · exact h.saved_cap b hb
      · rw [List.mem_singleton.mp hb]
        intro hlen
        exact h.cur_cap hlen
    · rw [flattenRecs_append, flattenRecs_singleton]
      simpa using h.flatten_eq
    · simp [h.meta_eq, batchProj]
    · simp [h.numbers_eq, h.number_eq, consecutiveFrom_snoc, Nat.add_comm]
    · exact h.words_eq
    · exact h.toks_eq
    · rfl
  case isFalse hem =>
    have hcur : s.current_batch = [] := by
      by_contra hc
      exact hem hc
    refine ⟨h.saved_sum, h.saved_nonempty, h.saved_cap, ?_, h.meta_eq,
      h.numbers_eq, h.words_eq, h.toks_eq, rfl⟩
    have := h.flatten_eq
    rw [hcur, List.append_nil] at this
    exact this

/-! ### The oversized-singleton scenario -/

/-- After the loop body runs, the current batch is never empty. -/
theorem processStep_current_ne (limit : Nat) (s : LoopState) (a : CostedArticle) :
    (processStep limit s a).current_batch ≠ [] := by
  rw [processStep]
  split <;> simp

theorem foldl_processStep_snoc (limit : Nat) (rs : List CostedArticle)
    (s : LoopState) (a : CostedArticle) :
    (rs ++ [a]).foldl (processStep limit) s =
      processStep limit (rs.foldl (processStep limit) s) a := by
  simp [List.foldl_append]

/-- After a non-empty input prefix, the current batch is non-empty. -/
theorem foldl_current_ne (limit : Nat) (rs : List CostedArticle)
    (s : LoopState) (h : rs ≠ []) :
    (rs.foldl (processStep limit) s).current_batch ≠ [] := by
  induction rs using List.reverseRecOn with
  | nil => exact absurd rfl h
  | append_singleton rs a _ =>
    rw [foldl_processStep_snoc]
    exact processStep_current_ne limit _ a

/-- When every record's cost exceeds the limit, the packer emits one
singleton batch per record, in order. -/
theorem packCosted_oversized (limit : Nat) (rs : List CostedArticle)
    (h : ∀ r ∈ rs, limit < r.token_count) :
    (packCosted limit rs).saved.map Batch.records = rs.map (fun r => [r]) := by
  induction rs using List.reverseRecOn with
  | nil => rfl
  | append_singleton rs a ih =>
    have hrs : ∀ r ∈ rs, limit < r.token_count :=
      fun r hr => h r (List.mem_append_left _ hr)
    have ha : limit < a.token_count :=
      h a (List.mem_append_right _ (List.mem_singleton_self a))
    have ih' := ih hrs
    by_cases hrs0 : rs = []
    · subst hrs0
      simp [packCosted, flushState, processStep, initState]
    · have hs_ne := foldl_current_ne limit rs initState hrs0
      have hcond : limit <
          (rs.foldl (processStep limit) initState).current_batch_tokens +
            a.token_count ∧
          (rs.foldl (processStep limit) initState).current_batch ≠ [] :=
        ⟨lt_of_lt_of_le ha (Nat.le_add_left _ _), hs_ne⟩
      rw [packCosted, foldl_processStep_snoc, processStep, if_pos hcond]
      rw [packCosted, flushState, if_pos hs_ne] at ih'
      simp only [List.map_append, List.map_cons, List.map_nil] at ih'
      simp only [flushState, List.cons_ne_nil, ne_eq, not_false_iff, if_true,
        List.map_append, List.map_cons, List.map_nil]
      rw [← ih']

/-! ### Determinism: the branch decisions and the emitted metadata
depend only on the token-cost sequence -/

/-- The part of the loop state that the branch condition and the
emitted batch metadata are computed from. -/
def stateShape (s : LoopState) :
    Nat × Nat × Nat × List BatchMeta × List BatchMeta :=
  (s.current_batch.length, s.current_batch_tokens, s.batch_number,
   s.batchesMeta, s.saved.map batchProj)

theorem processStep_shape {limit : Nat} {s₁ s₂ : LoopState}
    {a₁ a₂ : CostedArticle} (hs : stateShape s₁ = stateShape s₂)
    (ha : a₁.token_count = a₂.token_count) :
    stateShape (processStep limit s₁ a₁) =
      stateShape (processStep limit s₂ a₂) := by
  simp only [stateShape, Prod.mk.injEq] at hs
  obtain ⟨h1, h2, h3, h4, h5⟩ := hs
  have hemp : s₁.current_batch = [] ↔ s₂.current_batch = [] := by
    rw [← List.length_eq_zero, ← List.length_eq_zero, h1]
  have hcond : (limit < s₁.current_batch_tokens + a₁.token_count ∧
      s₁.current_batch ≠ []) ↔
      (limit < s₂.current_batch_tokens + a₂.token_count ∧
      s₂.current_batch ≠ []) := by
    rw [h2, ha]
    exact and_congr_right (fun _ => not_congr hemp)
  rw [processStep, processStep]
  by_cases hc : limit < s₂.current_batch_tokens + a₂.token_count ∧
      s₂.current_batch ≠ []
  · rw [if_pos (hcond.mpr hc), if_pos hc]
    simp [stateShape, batchProj, h1, h2, h3, h4, h5, ha]
  · rw [if_neg (fun hh => hc (hcond.mp hh)), if_neg hc]
    simp [stateShape, h1, h2, h3, h4, h5, ha]

theorem foldl_shape {limit : Nat} :
    ∀ (l₁ l₂ : List CostedArticle) (s₁ s₂ : LoopState),
    l₁.map CostedArticle.token_count = l₂.map CostedArticle.token_count →
    stateShape s₁ = stateShape s₂ →
    stateShape (l₁.foldl (processStep limit) s₁) =
      stateShape (l₂.foldl (processStep limit) s₂) := by
  intro l₁
  induction l₁ with
  | nil =>
    intro l₂ s₁ s₂ hl hs
    cases l₂ with
    | nil => simpa using hs
    | cons b t => simp at hl
  | cons a l ih =>
    intro l₂ s₁ s₂ hl hs
    cases l₂ with
    | nil => simp at hl
    | cons b t =>
      simp only [List.map_cons, List.cons.injEq] at hl
      simp only [List.foldl_cons]
      exact ih t _ _ hl.2 (processStep_shape hs hl.1)

theorem flushState_shape {s₁ s₂ : LoopState} {n : Nat}
    (hs : stateShape s₁ = stateShape s₂) :
    (flushState s₁ n).batchesMeta = (flushState s₂ n).batchesMeta ∧
    (flushState s₁ n).saved.map batchProj =
      (flushState s₂ n).saved.map batchProj := by
  simp only [stateShape, Prod.mk.injEq] at hs
  obtain ⟨h1, h2, h3, h4, h5⟩ := hs
  have hemp : s₁.current_batch = [] ↔ s₂.current_batch = [] := by
    rw [← List.length_eq_zero, ← List.length_eq_zero, h1]
  rw [flushState, flushState]
  by_cases hc : s₂.current_batch ≠ []
  · rw [if_pos (fun he => hc (hemp.mp he)), if_pos hc]
    constructor
    · simp [h3, h4, h1, h2]
    · simp [batchProj, h5, h3, h1, h2]
  · rw [if_neg (fun hne => hc (fun he => hne (hemp.mpr he))), if_neg hc]
    exact ⟨h4, h5⟩

theorem packCosted_shape {limit : Nat} {l₁ l₂ : List CostedArticle}
    (hl : l₁.map CostedArticle.token_count = l₂.map CostedArticle.token_count) :
    (packCosted limit l₁).batchesMeta = (packCosted limit l₂).batchesMeta ∧
    (packCosted limit l₁).saved.map batchProj =
      (packCosted limit l₂).saved.map batchProj := by
  rw [packCosted, packCosted]
  have hlen : l₁.length = l₂.length := by
    have := congrArg List.length hl
    simpa using this
  rw [hlen]
  exact flushState_shape (foldl_shape l₁ l₂ initState initState hl rfl)

/-! ### Characterisation of `fetch_articles` -/

theorem fetch_foldl (records : List PubmedRecord) :
    ∀ (acc : List Article × Nat),
    records.foldl fetchStep acc =
      (acc.1 ++ records.filterMap admitRecord,
       acc.2 + (records.filter (fun r => (admitRecord r).isNone)).length) := by
  induction records with
  | nil =>
    intro acc
    simp
  | cons r rs ih =>
    intro acc
    simp only [List.foldl_cons]
    rw [ih]
    cases hr : admitRecord r with
    | some a =>
      simp [fetchStep, hr, List.filterMap_cons, List.filter_cons]
    | none =>
      simp [fetchStep, hr, List.filterMap_cons, List.filter_cons]
      omega

/-- `fetch_articles` returns exactly the admitted records, in order,
and counts one skip per rejected record. -/
theorem fetch_articles_spec (records : List PubmedRecord) :
    fetch_articles records =
      (records.filterMap admitRecord,
       (records.filter (fun r => (admitRecord r).isNone)).length) := by
  have h := fetch_foldl records ([], 0)
  simpa [fetch_articles] using h

/-- Admitted plus skipped accounts for every fetched record once. -/
theorem admit_counts (records : List PubmedRecord) :
    (records.filterMap admitRecord).length +
      (records.filter (fun r => (admitRecord r).isNone)).length =
      records.length := by
  induction records with
  | nil => rfl
  | cons r rs ih =>
    cases hr : admitRecord r <;>
      simp [List.filterMap_cons, List.filter_cons, hr] <;> omega

/-- A record of some batch in a batch list occurs in the concatenation. -/
theorem mem_flattenRecs {bs : List Batch} {b : Batch} {r : CostedArticle}
    (hb : b ∈ bs) (hr : r ∈ b.records) : r ∈ flattenRecs bs := by
  induction bs with
  | nil => cases hb
  | cons x t ih =>
    rcases List.mem_cons.mp hb with h | h
    · rw [flattenRecs]
      exact List.mem_append_left _ (h ▸ hr)
    · rw [flattenRecs]
      exact List.mem_append_right _ (ih h)

/-! ### The claims -/

/-- C1: Capacity invariant of the packer.  Every batch emitted by
`process_and_batch_articles` with more than one record has
`total_cost ≤ token_limit`; a batch whose total cost exceeds the limit
holds exactly one record, whose own token count exceeds the limit. -/
theorem capacity_invariant (count_tokens : String → Nat) (token_limit : Nat)
    (articles : List Article) :
    ∀ b ∈ (process_and_batch_articles count_tokens token_limit articles).saved,
      (1 < b.records.length → b.token_count ≤ token_limit) ∧
      (token_limit < b.token_count →
        ∃ r, b.records = [r] ∧ token_limit < r.token_count) := by
  intro b hb
  have hf := packCosted_facts token_limit (articles.map (costArticle count_tokens))
  refine ⟨hf.saved_cap b hb, ?_⟩
  intro hgt
  have hne := hf.saved_nonempty b hb
  have hlen : b.records.length ≤ 1 := by
    by_contra hl
    have := hf.saved_cap b hb (not_le.mp hl)
    omega
  cases hrec : b.records with
  | nil => exact absurd hrec hne
  | cons r t =>
    cases t with
    | nil =>
      refine ⟨r, rfl, ?_⟩
      have hsum := hf.saved_sum b hb
      rw [hrec, costSum] at hsum
      simp at hsum
      omega
    | cons r' t' =>
      rw [hrec] at hlen
      simp at hlen

/-- C1 witness: a single article of cost 3 against limit 1 is emitted
as an over-capacity singleton. -/
theorem capacity_invariant_witness :
    ∃ r, Batch.records ⟨1, [⟨"1", "t", "a", 2, 3⟩], 3⟩ = [r] ∧
      1 < r.token_count :=
  (capacity_invariant String.length 1 [⟨"1", "t", "a"⟩]
    ⟨1, [⟨"1", "t", "a", 2, 3⟩], 3⟩ (by decide)).2 (by decide)

/-- C2: Completeness and order preservation.  For every admitted input
sequence and positive capacity, concatenating the record sequences of
all emitted batches in batch order yields exactly the (costed) input
sequence. -/
theorem pack_completeness (count_tokens : String → Nat) (token_limit : Nat)
    (articles : List Article) (_hpos : 0 < token_limit) :
    flattenRecs
        (process_and_batch_articles count_tokens token_limit articles).saved =
      articles.map (costArticle count_tokens) :=
  (packCosted_facts token_limit (articles.map (costArticle count_tokens))).flatten_eq

/-- C2 witness at capacity 1 and a concrete two-article input. -/
theorem pack_completeness_witness :
    flattenRecs
        (process_and_batch_articles String.length 1
          [⟨"1", "t", "a"⟩, ⟨"2", "u", "b"⟩]).saved =
      [⟨"1", "t", "a"⟩, ⟨"2", "u", "b"⟩].map (costArticle String.length) :=
  pack_completeness String.length 1 [⟨"1", "t", "a"⟩, ⟨"2", "u", "b"⟩] (by decide)

/-- C3: Oversized-singleton handling.  A record whose own cost exceeds
the capacity is alone in its batch; if the capacity is below every
record's cost, the output is exactly one singleton batch per record. -/
theorem oversized_singleton (count_tokens : String → Nat) (token_limit : Nat)
    (articles : List Article) :
    (∀ b ∈ (process_and_batch_articles count_tokens token_limit articles).saved,
      ∀ r ∈ b.records, token_limit < r.token_count → b.records = [r]) ∧
    ((∀ a ∈ articles, token_limit < count_tokens (combinedText a)) →
      (process_and_batch_articles count_tokens token_limit articles).saved.map
          Batch.records =
        (articles.map (costArticle count_tokens)).map (fun r => [r])) := by
  constructor
  · intro b hb r hr hgt
    have hf := packCosted_facts token_limit (articles.map (costArticle count_tokens))
    have hne := hf.saved_nonempty b hb
    have hlen : b.records.length ≤ 1 := by
      by_contra hl
      have hcap := hf.saved_cap b hb (not_le.mp hl)
      have hsum := hf.saved_sum b hb
      have hmem : r.token_count ≤ costSum b.records := by
        rw [costSum]
        exact List.single_le_sum (fun x _ => Nat.zero_le x) _
          (List.mem_map_of_mem CostedArticle.token_count hr)
      omega
    cases hrec : b.records with
    | nil => exact absurd hrec hne
    | cons x t =>
      cases t with
      | nil =>
        have hx : r = x := by
          rw [hrec] at hr
          simpa using hr
        rw [hx]
      | cons y t' =>
        rw [hrec] at hlen
        simp at hlen
  · intro hall
    apply packCosted_oversized
    intro r hr
    simp only [List.mem_map] at hr
    obtain ⟨a, ha, rfl⟩ := hr
    exact hall a ha

/-- C3 witness: capacity 0 below every cost yields one singleton batch
per record, and an oversized record sits alone in its batch. -/
theorem oversized_singleton_witness :
    Batch.records ⟨1, [⟨"1", "t", "a", 2, 3⟩], 3⟩ = [⟨"1", "t", "a", 2, 3⟩] ∧
    (process_and_batch_articles String.length 0
        [⟨"1", "t", "a"⟩, ⟨"2", "u", "b"⟩]).saved.map Batch.records =
      ([⟨"1", "t", "a"⟩, ⟨"2", "u", "b"⟩].map
        (costArticle String.length)).map (fun r => [r]) :=
  ⟨(oversized_singleton String.length 0 [⟨"1", "t", "a"⟩]).1
      ⟨1, [⟨"1", "t", "a", 2, 3⟩], 3⟩ (by decide) ⟨"1", "t", "a", 2, 3⟩
      (by decide) (by decide),
   (oversized_singleton String.length 0 [⟨"1", "t", "a"⟩, ⟨"2", "u", "b"⟩]).2
      (by decide)⟩

/-- C4: Tie rule at exact capacity.  When the open batch's accumulated
cost plus the next record's cost equals the limit exactly, the loop
body appends the record to the open batch and closes nothing. -/
theorem tie_appends (token_limit : Nat) (s : LoopState) (a : CostedArticle)
    (h : s.current_batch_tokens + a.token_count = token_limit) :
    (processStep token_limit s a).current_batch = s.current_batch ++ [a] ∧
    (processStep token_limit s a).saved = s.saved ∧
    (processStep token_limit s a).batch_number = s.batch_number ∧
    (processStep token_limit s a).current_batch_tokens =
      s.current_batch_tokens + a.token_count := by
  have hnot : ¬(token_limit < s.current_batch_tokens + a.token_count ∧
      s.current_batch ≠ []) := by
    rintro ⟨hlt, -⟩
    omega
  rw [processStep, if_neg hnot]
  exact ⟨rfl, rfl, rfl, rfl⟩

/-- C4 witness: an open batch at cost 2 admits a cost-1 record at
limit 3. -/
theorem tie_appends_witness :
    (processStep 3 ⟨[⟨"1", "t", "a", 2, 2⟩], 2, 1, [], [], 2, 2⟩
        ⟨"2", "u", "b", 2, 1⟩).current_batch =
      [⟨"1", "t", "a", 2, 2⟩] ++ [⟨"2", "u", "b", 2, 1⟩] ∧
    (processStep 3 ⟨[⟨"1", "t", "a", 2, 2⟩], 2, 1, [], [], 2, 2⟩
        ⟨"2", "u", "b", 2, 1⟩).saved = [] ∧
    (processStep 3 ⟨[⟨"1", "t", "a", 2, 2⟩], 2, 1, [], [], 2, 2⟩
        ⟨"2", "u", "b", 2, 1⟩).batch_number = 1 ∧
    (processStep 3 ⟨[⟨"1", "t", "a", 2, 2⟩], 2, 1, [], [], 2, 2⟩
        ⟨"2", "u", "b", 2, 1⟩).current_batch_tokens = 2 + 1 :=
  tie_appends 3 ⟨[⟨"1", "t", "a", 2, 2⟩], 2, 1, [], [], 2, 2⟩
    ⟨"2", "u", "b", 2, 1⟩ (by decide)

/-- C5: Determinism of packing.  The batch boundaries — the
`self.batches` metadata (batch numbers, record counts, total costs) —
are a function of the token-cost sequence of the input alone; in
particular two runs on the same record sequence with the same limit
produce identical boundaries. -/
theorem pack_deterministic (ct₁ ct₂ : String → Nat) (token_limit : Nat)
    (arts₁ arts₂ : List Article)
    (h : arts₁.map (fun a => ct₁ (combinedText a)) =
         arts₂.map (fun a => ct₂ (combinedText a))) :
    (process_and_batch_articles ct₁ token_limit arts₁).batchesMeta =
      (process_and_batch_articles ct₂ token_limit arts₂).batchesMeta ∧
    (process_and_batch_articles ct₁ token_limit arts₁).saved.map batchProj =
      (process_and_batch_articles ct₂ token_limit arts₂).saved.map batchProj := by
  apply packCosted_shape
  simpa [List.map_map, Function.comp, costArticle] using h

/-- C5 witness: two identical runs produce equal metadata. -/
theorem pack_deterministic_witness :
    (process_and_batch_articles String.length 5
        [⟨"1", "t", "a"⟩, ⟨"2", "u", "b"⟩]).batchesMeta =
      (process_and_batch_articles String.length 5
        [⟨"1", "t", "a"⟩, ⟨"2", "u", "b"⟩]).batchesMeta ∧
    (process_and_batch_articles String.length 5
        [⟨"1", "t", "a"⟩, ⟨"2", "u", "b"⟩]).saved.map batchProj =
      (process_and_batch_articles String.length 5
        [⟨"1", "t", "a"⟩, ⟨"2", "u", "b"⟩]).saved.map batchProj :=
  pack_deterministic String.length String.length 5
    [⟨"1", "t", "a"⟩, ⟨"2", "u", "b"⟩] [⟨"1", "t", "a"⟩, ⟨"2", "u", "b"⟩] rfl

/-- C6: Totals equation.  The run totals equal the sums of the
per-record token/word counts over all admitted records, for every
token limit (i.e. independent of the batch split). -/
theorem totals_equation (count_tokens : String → Nat) (token_limit : Nat)
    (articles : List Article) :
    (process_and_batch_articles count_tokens token_limit articles).total_tokens =
      costSum (articles.map (costArticle count_tokens)) ∧
    (process_and_batch_articles count_tokens token_limit articles).total_words =
      wordSum (articles.map (costArticle count_tokens)) :=
  ⟨(packCosted_facts token_limit (articles.map (costArticle count_tokens))).toks_eq,
   (packCosted_facts token_limit (articles.map (costArticle count_tokens))).words_eq⟩

/-- C9: Batch metadata well-formedness.  Every saved batch's recorded
total equals the sum of its records' token counts, `self.batches`
mirrors the saved batches, and the batch numbers are consecutive
starting at 1 in closing order. -/
theorem batch_metadata_wellformed (count_tokens : String → Nat)
    (token_limit : Nat) (articles : List Article) :
    (∀ b ∈ (process_and_batch_articles count_tokens token_limit articles).saved,
      b.token_count = costSum b.records) ∧
    (process_and_batch_articles count_tokens token_limit articles).batchesMeta =
      (process_and_batch_articles count_tokens token_limit
        articles).saved.map batchProj ∧
    (process_and_batch_articles count_tokens token_limit
        articles).batchesMeta.map BatchMeta.batch_number =
      consecutiveFrom 1
        (process_and_batch_articles count_tokens token_limit
          articles).batchesMeta.length := by
  have hf := packCosted_facts token_limit (articles.map (costArticle count_tokens))
  refine ⟨hf.saved_sum, hf.meta_eq, ?_⟩
  rw [process_and_batch_articles, hf.meta_eq, List.map_map, List.length_map]
  exact hf.numbers_eq

/-- C9 witness: a concrete two-batch run has sums and numbering 1, 2. -/
theorem batch_metadata_wellformed_witness :
    Batch.token_count ⟨1, [⟨"1", "t", "a", 2, 3⟩], 3⟩ =
      costSum (Batch.records ⟨1, [⟨"1", "t", "a", 2, 3⟩], 3⟩) ∧
    (process_and_batch_articles String.length 1
        [⟨"1", "t", "a"⟩, ⟨"2", "u", "b"⟩]).batchesMeta.map
        BatchMeta.batch_number =
      consecutiveFrom 1
        (process_and_batch_articles String.length 1
          [⟨"1", "t", "a"⟩, ⟨"2", "u", "b"⟩]).batchesMeta.length :=
  ⟨(batch_metadata_wellformed String.length 1
      [⟨"1", "t", "a"⟩, ⟨"2", "u", "b"⟩]).1
      ⟨1, [⟨"1", "t", "a", 2, 3⟩], 3⟩ (by decide),
   (batch_metadata_wellformed String.length 1
      [⟨"1", "t", "a"⟩, ⟨"2", "u", "b"⟩]).2.2⟩

/-- C10: the packer never emits an empty batch, and the empty input
yields zero batches. -/
theorem no_empty_batch (count_tokens : String → Nat) (token_limit : Nat)
    (articles : List Article) :
    (∀ b ∈ (process_and_batch_articles count_tokens token_limit articles).saved,
      b.records ≠ []) ∧
    (process_and_batch_articles count_tokens token_limit []).saved = [] :=
  ⟨(packCosted_facts token_limit
      (articles.map (costArticle count_tokens))).saved_nonempty, rfl⟩

/-- C10 witness: a concrete saved batch (with a zero-cost record) is
non-empty. -/
theorem no_empty_batch_witness :
    Batch.records ⟨1, [⟨"1", "t", "a", 2, 0⟩], 0⟩ ≠ [] :=
  (no_empty_batch (fun _ => 0) 4 [⟨"1", "t", "a"⟩]).1
    ⟨1, [⟨"1", "t", "a", 2, 0⟩], 0⟩ (by decide)

/-- C7 counterexample: `fetch_articles` admits a record whose
`Abstract.AbstractText` is present but holds only an empty string — the
admitted article carries empty body text and the skip counter stays 0,
so admission is not conditional on *non-empty* body text. -/
theorem quality_filter_counterexample :
    fetch_articles [⟨some "1", some "T", AbstractData.textList [""]⟩] =
      ([⟨"1", "T", ""⟩], 0) ∧
    Article.abstract ⟨"1", "T", ""⟩ = "" :=
  ⟨rfl, rfl⟩

/-- C7 (amended): a fetched record is admitted exactly when its PMID,
title and a truthy `Abstract` field containing `AbstractText` are
present (the extracted text itself may be empty); every rejected record
increments the skip counter exactly once, admitted plus skipped counts
every record once, and every record of every emitted batch stems from
an admitted record. -/
theorem quality_filter (records : List PubmedRecord) :
    (fetch_articles records).1 = records.filterMap admitRecord ∧
    (fetch_articles records).2 =
      (records.filter (fun r => (admitRecord r).isNone)).length ∧
    (fetch_articles records).1.length + (fetch_articles records).2 =
      records.length ∧
    ∀ (count_tokens : String → Nat) (token_limit : Nat) (b : Batch),
      b ∈ (process_and_batch_articles count_tokens token_limit
        (fetch_articles records).1).saved →
      ∀ cr ∈ b.records, ∃ rec ∈ records,
        admitRecord rec = some ⟨cr.pmid, cr.title, cr.abstract⟩ := by
  have hspec := fetch_articles_spec records
  have h1 : (fetch_articles records).1 = records.filterMap admitRecord := by
    rw [hspec]
  have h2 : (fetch_articles records).2 =
      (records.filter (fun r => (admitRecord r).isNone)).length := by
    rw [hspec]
  refine ⟨h1, h2, ?_, ?_⟩
  · rw [h1, h2]
    exact admit_counts records
  · intro ct limit b hb cr hcr
    have hf := packCosted_facts limit
      ((fetch_articles records).1.map (costArticle ct))
    have hmem := mem_flattenRecs hb hcr
    rw [process_and_batch_articles] at hmem
    rw [hf.flatten_eq] at hmem
    obtain ⟨a, ha, rfl⟩ := List.mem_map.mp hmem
    rw [h1] at ha
    obtain ⟨rec, hrec, hadm⟩ := List.mem_filterMap.mp ha
    exact ⟨rec, hrec, hadm⟩

/-- C7 witness: of two concrete records, the one with an abstract is
admitted and traced back from its batch, the other is skipped once. -/
theorem quality_filter_witness :
    (fetch_articles [⟨some "1", some "T", AbstractData.textSingle "abs"⟩,
        ⟨some "2", some "U", AbstractData.absent⟩]).1.length +
      (fetch_articles [⟨some "1", some "T", AbstractData.textSingle "abs"⟩,
        ⟨some "2", some "U", AbstractData.absent⟩]).2 = 2 ∧
    ∃ rec ∈ [⟨some "1", some "T", AbstractData.textSingle "abs"⟩,
        ⟨some "2", some "U", AbstractData.absent⟩],
      admitRecord rec = some ⟨CostedArticle.pmid ⟨"1", "T", "abs", 2, 5⟩,
        CostedArticle.title ⟨"1", "T", "abs", 2, 5⟩,
        CostedArticle.abstract ⟨"1", "T", "abs", 2, 5⟩⟩ :=
  ⟨(quality_filter [⟨some "1", some "T", AbstractData.textSingle "abs"⟩,
      ⟨some "2", some "U", AbstractData.absent⟩]).2.2.1,
   (quality_filter [⟨some "1", some "T", AbstractData.textSingle "abs"⟩,
      ⟨some "2", some "U", AbstractData.absent⟩]).2.2.2 String.length 8000
      ⟨1, [⟨"1", "T", "abs", 2, 5⟩], 5⟩ (by decide)
      ⟨"1", "T", "abs", 2, 5⟩ (by decide)⟩

/-- C8 counterexample: with zero admitted articles both `save_summary`
and `print_summary` emit *no* average line at all — the summary
contains no "not applicable" report for the averages. -/
theorem averages_counterexample :
    summaryAverageLines 0 0 0 = some [] ∧ printAverageLines 0 0 = some [] :=
  ⟨rfl, rfl⟩

/-- C8 (amended): the average derivations are guarded by
`total_articles > 0`, so no division-by-zero error is possible; with
zero admitted articles the average lines are omitted from the summary
entirely (not reported as "not applicable"). -/
theorem averages_guarded (total_words total_tokens total_articles : Nat) :
    summaryAverageLines total_words total_tokens total_articles ≠ none ∧
    printAverageLines total_tokens total_articles ≠ none ∧
    summaryAverageLines total_words total_tokens 0 = some [] ∧
    printAverageLines total_tokens 0 = some [] := by
  refine ⟨?_, ?_, rfl, rfl⟩
  · rw [summaryAverageLines]
    split
    case isTrue h =>
      have hne : total_articles ≠ 0 := Nat.pos_iff_ne_zero.mp h
      simp [pyFloorDiv, hne]
    case isFalse h => simp
  · rw [printAverageLines]
    split
    case isTrue h =>
      have hne : total_articles ≠ 0 := Nat.pos_iff_ne_zero.mp h
      simp [pyFloorDiv, hne]
    case isFalse h => simp

end PubmedFetcher
